import Mathlib

/-!
Verification of the ir2dis bot core against its design description.

The development shallowly embeds the Python sources:
  * `src/storage/repository.py` and `src/iracing/repository.py` — the SQLite
    repository (tracked drivers, guild channel config, posted-result dedupe
    keys, poll watermarks).  SQLite tables keyed by a primary key are modelled
    as association lists with `INSERT OR REPLACE` semantics; `str(guild_id)`
    conversion is injective on Python ints, so TEXT guild keys are modelled by
    their integer preimages.
  * `src/iracing/service.py` — `ResultService.find_new_finishes_for_tracked`
    and `ResultService.process_and_post_results`.
  * `src/iracing/client.py` and `src/iracing/api.py` — the two
    `_get_json_via_download` retry loops.
  * `src/iracing/services/last_result.py` — `fetch_last_official_result`.
  * `src/discord_bot/embeds/race_result.py` — the embed colour mapping.

Effects are made explicit: HTTP traffic is an environment (a stream of
responses), the wall clock is a `now : Int` parameter, exceptions are
`Except`, and Discord sends are decided by a `sendOk` oracle with an
instrumented trace of the successful sends.
-/

namespace Ir2dis

/-! ## Association-list primitives (SQLite primary-key table semantics) -/

/-- Value stored under key `k`, models `SELECT v FROM t WHERE key = k`. -/
def lookupVal {β : Type} (k : Int) : List (Int × β) → Option β
  | [] => none
  | (k', v) :: t => if k' = k then some v else lookupVal k t

/-- Models `DELETE FROM t WHERE key = k` (removes every row with that key;
a primary-key table holds at most one). -/
def removeKey {β : Type} (k : Int) : List (Int × β) → List (Int × β)
  | [] => []
  | (k', v) :: t => if k' = k then removeKey k t else (k', v) :: removeKey k t

/-- Models `INSERT OR REPLACE INTO t (key, val) VALUES (k, v)`: the old row is
deleted and the fresh row is appended (a replaced row gets a new
`CURRENT_TIMESTAMP` default, so it sorts last under `ORDER BY added_at`). -/
def upsert {β : Type} (k : Int) (v : β) (l : List (Int × β)) : List (Int × β) :=
  removeKey k l ++ [(k, v)]

/-- Whether some row has key `k`. -/
def hasKey {β : Type} (k : Int) (l : List (Int × β)) : Bool :=
  (lookupVal k l).isSome

/-! ## Data model -/

/-- Composite dedupe key `(subsession_id, cust_id, guild_id)` of the
`posted_results` table. -/
abbrev PostKey := Int × Int × Int

/-- The persisted repository state: the four tables created by
`Repository.initialize_tables` in `src/storage/repository.py` (equally by
`init_db` in `src/store/database.py`). -/
structure RepoState where
  tracked : List (Int × String)
  channels : List (Int × Int)
  posted : List PostKey
  pollState : List (Int × Int)
  deriving DecidableEq, Repr

/-- A freshly initialised database: all tables empty. -/
def emptyRepo : RepoState := ⟨[], [], [], []⟩

/-- `FinishRecord` dataclass of `src/iracing/service.py` (floats are modelled
as rationals). -/
structure FinishRecord where
  subsession_id : Int
  cust_id : Int
  display_name : String
  series_name : String
  track_name : String
  car_name : String
  field_size : Int
  finish_pos : Int
  finish_pos_in_class : Option Int
  class_name : Option String
  laps : Int
  incidents : Int
  best_lap_time_s : Option ℚ
  sof : Option Int
  official : Bool
  start_time_utc : String
  deriving DecidableEq, Repr

instance : Inhabited FinishRecord :=
  ⟨⟨0, 0, "", "", "", "", 0, 0, none, none, 0, 0, none, none, false, ""⟩⟩

/-! ## Repository operations (`src/storage/repository.py`; the
`src/iracing/repository.py` iteration issues the same SQL and is covered by
the same model) -/

/-- `Repository.add_tracked_driver`:
`INSERT OR REPLACE INTO tracked_drivers (cust_id, display_name) VALUES (?, ?)`. -/
def add_tracked_driver (st : RepoState) (cust_id : Int) (display_name : String) : RepoState :=
  { st with tracked := upsert cust_id display_name st.tracked }

/-- `Repository.remove_tracked_driver`:
`DELETE FROM tracked_drivers WHERE cust_id = ?`, returning whether a row was
deleted (`total_changes` on the per-call connection, resp. `cursor.rowcount`). -/
def remove_tracked_driver (st : RepoState) (cust_id : Int) : Bool × RepoState :=
  (hasKey cust_id st.tracked, { st with tracked := removeKey cust_id st.tracked })

/-- `Repository.list_tracked`: all `(cust_id, display_name)` rows. -/
def list_tracked (st : RepoState) : List (Int × String) :=
  st.tracked

/-- `Repository.get_channel_for_guild`. -/
def get_channel_for_guild (st : RepoState) (guild_id : Int) : Option Int :=
  lookupVal guild_id st.channels

/-- `Repository.set_channel_for_guild`. -/
def set_channel_for_guild (st : RepoState) (guild_id channel_id : Int) : RepoState :=
  { st with channels := upsert guild_id channel_id st.channels }

/-- `Repository.mark_posted`: `INSERT OR REPLACE INTO posted_results
(subsession_id, cust_id, guild_id) VALUES (?, ?, ?)`.  On the full primary
key a replace only refreshes `posted_at`, so membership-wise the row is
inserted when absent. -/
def mark_posted (st : RepoState) (subsession_id cust_id guild_id : Int) : RepoState :=
  let key : PostKey := (subsession_id, cust_id, guild_id)
  { st with posted := if key ∈ st.posted then st.posted else st.posted ++ [key] }

/-- `Repository.was_posted`: `SELECT 1 FROM posted_results WHERE ...` is
non-empty. -/
def was_posted (st : RepoState) (subsession_id cust_id guild_id : Int) : Bool :=
  decide (((subsession_id, cust_id, guild_id) : PostKey) ∈ st.posted)

/-- `Repository.get_last_poll_ts` (the `src/storage/repository.py` version
returns `None` when the row is missing). -/
def get_last_poll_ts (st : RepoState) (cust_id : Int) : Option Int :=
  lookupVal cust_id st.pollState

/-- `Repository.set_last_poll_ts`. -/
def set_last_poll_ts (st : RepoState) (cust_id ts : Int) : RepoState :=
  { st with pollState := upsert cust_id ts st.pollState }

/-- Modelled from the spec: `Repository.list_guilds_with_channel` is called by
`ResultService.process_and_post_results` and `_get_guilds_with_channels` but
is defined nowhere under `src/`.  Per the design (section 4.3, "for each guild
with a configured channel") it returns the guild ids of the
`channel_config` table. -/
def list_guilds_with_channel (st : RepoState) : List Int :=
  st.channels.map Prod.fst

/-- The cust_id column of the `tracked_drivers` table. -/
def tracked_keys (st : RepoState) : List Int :=
  st.tracked.map Prod.fst

/-- Number of `tracked_drivers` rows carrying a given cust_id. -/
def key_count (k : Int) (l : List (Int × String)) : Nat :=
  (l.filter (fun p => decide (p.1 = k))).length

/-- The two commands that mutate the tracked-driver set: `/track` calls
`add_tracked_driver`, `/untrack` calls `remove_tracked_driver`. -/
inductive TrackOp where
  | add (cust_id : Int) (display_name : String)
  | remove (cust_id : Int)
  deriving DecidableEq, Repr

def apply_track_op (st : RepoState) : TrackOp → RepoState
  | .add c n => add_tracked_driver st c n
  | .remove c => (remove_tracked_driver st c).2

def apply_track_ops (st : RepoState) (ops : List TrackOp) : RepoState :=
  ops.foldl apply_track_op st

/-! ## Embed colour mapping -/

/-- The three `discord.Color` values the renderers use. -/
inductive EmbedColor where
  | green
  | orange
  | red
  deriving DecidableEq, Repr

/-- Colour chosen by `build_race_result_embed` in
`src/discord_bot/embeds/race_result.py`:
`if finish_pos <= 3: green elif finish_pos <= 10: orange else: red`. -/
def build_race_result_embed_color (record : FinishRecord) : EmbedColor :=
  if record.finish_pos ≤ 3 then .green
  else if record.finish_pos ≤ 10 then .orange
  else .red

/-- Colour chosen by `ResultService.post_finish_embed` in
`src/iracing/service.py`:
`green() if finish_pos <= 3 else (orange() if finish_pos <= 10 else red())`. -/
def post_finish_embed_color (record : FinishRecord) : EmbedColor :=
  if record.finish_pos ≤ 3 then .green
  else if record.finish_pos ≤ 10 then .orange
  else .red

/-! ## iRacing API environment

The injected API client is abstracted as a deterministic environment: the
session-search and result-sheet calls either return parsed data or raise
(`Except.error`).  A result payload that is falsy in Python (empty dict) is
`Option.none`. -/

/-- One row of the session list produced by `search_recent_sessions`. -/
structure SessionInfo where
  subsession_id : Int
  series_name : String
  track_name : String
  start_time : String
  official : Bool
  deriving DecidableEq, Repr

/-- One driver row of a full result sheet, with the `.get` defaults of the
consumers already applied. -/
structure ResultRow where
  cust_id : Int
  display_name : String
  car_name : String
  finish_pos : Int
  finish_pos_in_class : Option Int
  class_name : Option String
  laps : Int
  incidents : Int
  best_lap_time_s : Option ℚ
  deriving DecidableEq, Repr

/-- A full result sheet returned by `get_subsession_results`. -/
structure ResultSheet where
  results : List ResultRow
  field_size : Int
  sof : Option Int
  deriving DecidableEq, Repr

/-- Abstract iRacing client: responses of the two data calls the result
service performs.  `Except.error` is a raised exception, `Option.none` a
falsy (empty) payload. -/
structure IREnv where
  search_recent_sessions : Int → Int → Int → Except Unit (List SessionInfo)
  get_subsession_results : Int → Except Unit (Option ResultSheet)

/-- The `for row in results: if row.get("cust_id") == cust_id: break` scan. -/
def find_row (cust_id : Int) : List ResultRow → Option ResultRow
  | [] => none
  | r :: t => if r.cust_id = cust_id then some r else find_row cust_id t

/-! ## Result Service (`src/iracing/service.py`) -/

/-- The `FinishRecord(...)` constructor call in
`ResultService.find_new_finishes_for_tracked` (display_name comes from the
tracked-driver row). -/
def record_of (cust_id : Int) (display_name : String) (s : SessionInfo)
    (sheet : ResultSheet) (row : ResultRow) : FinishRecord :=
  { subsession_id := s.subsession_id
    cust_id := cust_id
    display_name := display_name
    series_name := s.series_name
    track_name := s.track_name
    car_name := row.car_name
    field_size := sheet.field_size
    finish_pos := row.finish_pos
    finish_pos_in_class := row.finish_pos_in_class
    class_name := row.class_name
    laps := row.laps
    incidents := row.incidents
    best_lap_time_s := row.best_lap_time_s
    sof := sheet.sof
    official := s.official
    start_time_utc := s.start_time }

/-- The per-driver session loop of `find_new_finishes_for_tracked`.  A raised
exception aborts the remaining sessions of this driver (it is caught by the
per-driver handler), but records appended before it are kept; an empty
payload or a missing driver row just skips the session. -/
def process_sessions (env : IREnv) (cust_id : Int) (display_name : String) :
    List SessionInfo → List FinishRecord → List FinishRecord
  | [], acc => acc
  | s :: rest, acc =>
    match env.get_subsession_results s.subsession_id with
    | .error _ => acc
    | .ok none => process_sessions env cust_id display_name rest acc
    | .ok (some sheet) =>
      match find_row cust_id sheet.results with
      | none => process_sessions env cust_id display_name rest acc
      | some row =>
        process_sessions env cust_id display_name rest
          (acc ++ [record_of cust_id display_name s sheet row])

/-- The per-driver body of `find_new_finishes_for_tracked`: read the
watermark (Python `if not last_poll_ts:` treats both a missing row and a
stored 0 as absent, defaulting to `now - 48h`), search sessions, process
them.  A raised search error is caught by the per-driver handler and yields
no records. -/
def process_driver (env : IREnv) (st : RepoState) (now : Int)
    (cust_id : Int) (display_name : String) : List FinishRecord :=
  let last_poll_ts :=
    match get_last_poll_ts st cust_id with
    | some t => if t = 0 then now - 48 * 3600 else t
    | none => now - 48 * 3600
  match env.search_recent_sessions cust_id last_poll_ts now with
  | .error _ => []
  | .ok sessions => process_sessions env cust_id display_name sessions []

/-- `ResultService.find_new_finishes_for_tracked`: returns the new finish
records and the repository state after the cycle.  When no drivers are
tracked it returns early; otherwise, after the driver loop, the watermark of
every tracked driver is set to `now` unconditionally. -/
def find_new_finishes_for_tracked (env : IREnv) (st : RepoState) (now : Int) :
    List FinishRecord × RepoState :=
  let tracked_drivers := list_tracked st
  if tracked_drivers.isEmpty then ([], st)
  else
    let new_finishes := tracked_drivers.foldl
      (fun acc p => acc ++ process_driver env st now p.1 p.2) []
    let st' := tracked_drivers.foldl (fun s p => set_last_poll_ts s p.1 now) st
    (new_finishes, st')

/-! ## process_and_post_results (`src/iracing/service.py`)

The Discord side is an oracle `sendOk : Nat → Bool` deciding whether the
n-th `channel.send` (counted by `tick`) succeeds or raises; the successful
sends are recorded in an instrumented trace `sends`. -/

/-- Running state of one `process_and_post_results` call: repository state,
global send counter, `posted_count`, and the trace of successful sends. -/
structure PostRun where
  st : RepoState
  tick : Nat
  count : Nat
  sends : List PostKey
  deriving Repr

/-- The body of the inner `for guild_id in guild_ids` loop: skip when
`was_posted`; look up the guild channel (Python `if channel_id:` also skips
a falsy 0); try the send, and only after a successful send `mark_posted` and
bump `posted_count`.  A raised send error is caught and the loop goes on. -/
def post_record_to_guild (sendOk : Nat → Bool) (record : FinishRecord)
    (p : PostRun) (guild_id : Int) : PostRun :=
  if was_posted p.st record.subsession_id record.cust_id guild_id then p
  else
    match get_channel_for_guild p.st guild_id with
    | none => p
    | some channel_id =>
      if channel_id = 0 then p
      else if sendOk p.tick then
        { st := mark_posted p.st record.subsession_id record.cust_id guild_id
          tick := p.tick + 1
          count := p.count + 1
          sends := p.sends ++ [(record.subsession_id, record.cust_id, guild_id)] }
      else { p with tick := p.tick + 1 }

/-- The per-record body: post to every guild of the precomputed list. -/
def post_record (sendOk : Nat → Bool) (guild_ids : List Int)
    (p : PostRun) (record : FinishRecord) : PostRun :=
  guild_ids.foldl (post_record_to_guild sendOk record) p

/-- `ResultService.process_and_post_results`: fetch the guilds with a
configured channel once, then loop over records and guilds. -/
def process_and_post_results (sendOk : Nat → Bool) (st : RepoState)
    (tick : Nat) (records : List FinishRecord) : PostRun :=
  let guild_ids := list_guilds_with_channel st
  records.foldl (post_record sendOk guild_ids)
    { st := st, tick := tick, count := 0, sends := [] }

/-! ## fetch_last_official_result (`src/iracing/services/last_result.py`) -/

/-- The `FinishRecord(...)` constructor call in `fetch_last_official_result`
(display_name comes from the result row here). -/
def record_of_last (cust_id : Int) (s : SessionInfo) (sheet : ResultSheet)
    (row : ResultRow) : FinishRecord :=
  { subsession_id := s.subsession_id
    cust_id := cust_id
    display_name := row.display_name
    series_name := s.series_name
    track_name := s.track_name
    car_name := row.car_name
    field_size := sheet.field_size
    finish_pos := row.finish_pos
    finish_pos_in_class := row.finish_pos_in_class
    class_name := row.class_name
    laps := row.laps
    incidents := row.incidents
    best_lap_time_s := row.best_lap_time_s
    sof := sheet.sof
    official := s.official
    start_time_utc := s.start_time }

/-- The `for session in reversed(sessions)` loop of
`fetch_last_official_result`: a per-session exception is caught and the scan
continues; a session with the driver row is returned only when official,
otherwise skipped. -/
def fetch_sessions_loop (env : IREnv) (cust_id : Int) :
    List SessionInfo → Option FinishRecord
  | [] => none
  | s :: rest =>
    match env.get_subsession_results s.subsession_id with
    | .error _ => fetch_sessions_loop env cust_id rest
    | .ok none => fetch_sessions_loop env cust_id rest
    | .ok (some sheet) =>
      match find_row cust_id sheet.results with
      | none => fetch_sessions_loop env cust_id rest
      | some row =>
        if s.official then some (record_of_last cust_id s sheet row)
        else fetch_sessions_loop env cust_id rest

/-- `fetch_last_official_result(api, cust_id)`: guard non-positive ids,
search the last 7 days, scan the sessions most-recent-first.  A raised
search error propagates (`except APIError: raise`). -/
def fetch_last_official_result (env : IREnv) (now cust_id : Int) :
    Except Unit (Option FinishRecord) :=
  if cust_id ≤ 0 then .ok none
  else
    match env.search_recent_sessions cust_id (now - 7 * 24 * 3600) now with
    | .error e => .error e
    | .ok sessions =>
      if sessions.isEmpty then .ok none
      else .ok (fetch_sessions_loop env cust_id sessions.reverse)

/-- The source function receives only `(api, cust_id)` — no repository
handle — and performs no repository operation; its lifting to a
repository-state transformer therefore returns the state unchanged.  This
definition makes that frame condition statable. -/
def fetch_last_official_result_run (st : RepoState) (env : IREnv)
    (now cust_id : Int) : Except Unit (Option FinishRecord) × RepoState :=
  (fetch_last_official_result env now cust_id, st)

/-- Statement-side helper: the session has a result sheet whose rows contain
the driver. -/
def has_driver_row (env : IREnv) (cust_id : Int) (s : SessionInfo) : Bool :=
  match env.get_subsession_results s.subsession_id with
  | .ok (some sheet) => (find_row cust_id sheet.results).isSome
  | _ => false

/-- Statement-side helper: the record built from the session the scan picks. -/
def last_record_of (env : IREnv) (cust_id : Int) (s : SessionInfo) : FinishRecord :=
  match env.get_subsession_results s.subsession_id with
  | .ok (some sheet) =>
    match find_row cust_id sheet.results with
    | some row => record_of_last cust_id s sheet row
    | none => default
  | _ => default

/-! ## Sample data for concrete witnesses -/

/-- A result row of some other driver (cust_id 99). -/
def sampleRow : ResultRow := ⟨99, "Other", "Car", 1, none, none, 10, 0, none⟩

/-- A sheet that does not contain driver 123456. -/
def sampleSheet : ResultSheet := ⟨[sampleRow], 20, none⟩

/-- A single finished official session. -/
def sampleSession : SessionInfo := ⟨789012, "Test Series", "Test Track", "2023-01-01T00:00:00Z", true⟩

/-- An environment whose result sheets never contain driver 123456. -/
def sampleEnvNoRow : IREnv :=
  ⟨fun _ _ _ => .ok [sampleSession], fun _ => .ok (some sampleSheet)⟩

/-- An environment in which every API call raises. -/
def sampleErrEnv : IREnv := ⟨fun _ _ _ => .error (), fun _ => .error ()⟩

/-- A repository tracking driver 123456 with watermark 50. -/
def sampleTrackedRepo : RepoState :=
  ⟨[(123456, "Test Driver")], [], [], [(123456, 50)]⟩

/-- The result row of driver 123456. -/
def sampleRowDriver : ResultRow := ⟨123456, "Test Driver", "Car", 1, none, none, 50, 0, none⟩

/-- A sheet containing driver 123456. -/
def sampleSheetDriver : ResultSheet := ⟨[sampleRowDriver], 24, some 1250⟩

/-- An environment with one official session whose sheet contains 123456. -/
def sampleEnvDriver : IREnv :=
  ⟨fun _ _ _ => .ok [sampleSession], fun _ => .ok (some sampleSheetDriver)⟩

/-! ## HTTP retry loops (`_get_json_via_download`)

Both clients are driven by a response stream `resp : Nat → Except Unit
HttpResp`: the n-th `session.get` of the whole fetch (link requests,
post-re-login retries and payload downloads alike) receives the n-th entry;
`Except.error` is a raised `aiohttp.ClientError`/`TimeoutError`.  Sleeps are
recorded as exact rationals (`base * 2 ** attempt` and the jitter are exact
binary/decimal fractions). -/

/-- An HTTP response: status, whether the body parses as JSON, the parsed
`link` field when present, and an abstract payload id. -/
structure HttpResp where
  status : Nat
  isJson : Bool
  link : Option String
  payload : Nat
  deriving DecidableEq, Repr

/-- The response stream consumed by one fetch. -/
structure HttpEnv where
  resp : Nat → Except Unit HttpResp

/-- The exceptions `src/iracing/client.py` can raise out of
`_get_json_via_download`. -/
inductive CErr where
  /-- re-raised `aiohttp.ClientError` / `asyncio.TimeoutError` -/
  | net
  /-- `Exception("API request failed with status ...")` -/
  | httpFail (status : Nat)
  /-- `response.json()` raised -/
  | parseFail
  /-- `Exception("Download failed: ...")` -/
  | downloadFail (status : Nat)
  /-- `Exception("Max retries exceeded in _get_json_via_download")` after the loop -/
  | maxRetriesExceeded
  deriving DecidableEq, Repr

/-- Instrumentation of one `client.py` fetch: loop iterations started and the
exact `asyncio.sleep` durations. -/
structure CTrace where
  attempts : Nat
  sleeps : List ℚ
  deriving DecidableEq, Repr

/-- `client.py` backoff: `delay = min(base_delay * 2 ** attempt, 60)` plus
jitter `delay * 0.1`. -/
def client_delay (attempt : Nat) : ℚ :=
  let d := min ((2 : ℚ) ^ attempt) 60
  d + d / 10

/-- The retry loop of `IRacingClient._get_json_via_download` in
`src/iracing/client.py` (`for attempt in range(5)`), with `fuel` the
remaining iterations.  429/5xx sleep and `continue`; other non-200 statuses
and parse failures raise, are caught by the generic handler and retried
unless this was the last attempt; a truthy `link` field triggers the payload
download on the same stream; the post-loop `raise` is the `fuel = 0` case. -/
def client_fetch_go (env : HttpEnv) (req attempt fuel : Nat) (tr : CTrace) :
    Except CErr Nat × CTrace :=
  match fuel with
  | 0 => (.error .maxRetriesExceeded, tr)
  | fuel' + 1 =>
    let tr := { tr with attempts := tr.attempts + 1 }
    match env.resp req with
    | .error _ =>
      if fuel' = 0 then (.error .net, tr)
      else client_fetch_go env (req + 1) (attempt + 1) fuel'
        { tr with sleeps := tr.sleeps ++ [client_delay attempt] }
    | .ok r =>
      if r.status = 429 then
        client_fetch_go env (req + 1) (attempt + 1) fuel'
          { tr with sleeps := tr.sleeps ++ [client_delay attempt] }
      else if 500 ≤ r.status then
        client_fetch_go env (req + 1) (attempt + 1) fuel'
          { tr with sleeps := tr.sleeps ++ [client_delay attempt] }
      else if r.status ≠ 200 then
        if fuel' = 0 then (.error (.httpFail r.status), tr)
        else client_fetch_go env (req + 1) (attempt + 1) fuel'
          { tr with sleeps := tr.sleeps ++ [client_delay attempt] }
      else if r.isJson = false then
        if fuel' = 0 then (.error .parseFail, tr)
        else client_fetch_go env (req + 1) (attempt + 1) fuel'
          { tr with sleeps := tr.sleeps ++ [client_delay attempt] }
      else
        match r.link with
        | none => (.ok r.payload, tr)
        | some l =>
          if l = "" then (.ok r.payload, tr)
          else
            match env.resp (req + 1) with
            | .error _ =>
              if fuel' = 0 then (.error .net, tr)
              else client_fetch_go env (req + 2) (attempt + 1) fuel'
                { tr with sleeps := tr.sleeps ++ [client_delay attempt] }
            | .ok d =>
              if d.status ≠ 200 then
                if fuel' = 0 then (.error (.downloadFail d.status), tr)
                else client_fetch_go env (req + 2) (attempt + 1) fuel'
                  { tr with sleeps := tr.sleeps ++ [client_delay attempt] }
              else if d.isJson = false then
                if fuel' = 0 then (.error .parseFail, tr)
                else client_fetch_go env (req + 2) (attempt + 1) fuel'
                  { tr with sleeps := tr.sleeps ++ [client_delay attempt] }
              else (.ok d.payload, tr)

/-- `IRacingClient._get_json_via_download` of `src/iracing/client.py`:
`max_retries = 5`, fresh counters. -/
def client_get_json_via_download (env : HttpEnv) : Except CErr Nat × CTrace :=
  client_fetch_go env 0 0 5 ⟨0, []⟩

/-- Exceptions raised inside one attempt of the `src/iracing/api.py` loop. -/
inductive AErr where
  /-- `aiohttp.ClientError` / `asyncio.TimeoutError` -/
  | net
  /-- `AuthError` (second 401/403 after the re-login) -/
  | auth
  /-- a generic `APIError` (`_raise_with_body`, non-JSON, missing link) -/
  | api
  deriving DecidableEq, Repr

/-- What `api.py` `_get_json_via_download` can raise to its caller. -/
inductive AFetchErr where
  /-- bare `raise` of the network error at the last attempt -/
  | netRaise
  /-- `APIError("Max retries exceeded for ...")` wrapping the last inner
  error — note the raised object is a plain `APIError` even when the inner
  error was an `AuthError` -/
  | apiMaxRetries (inner : AErr)
  /-- `APIError("Failed to fetch data ... after ... attempts")` after the
  loop (unreachable: every iteration returns or raises) -/
  | apiExhausted
  deriving DecidableEq, Repr

/-- Instrumentation of one `api.py` fetch: requests consumed, `session.get`
calls made, `login` calls made, loop iterations started, sleeps. -/
structure ATrace where
  req : Nat
  gets : Nat
  logins : Nat
  attempts : Nat
  sleeps : List ℚ
  deriving DecidableEq, Repr

/-- `api.py` backoff: `delay = base_delay * 2 ** attempt + attempt * 0.1`,
capped at 60. -/
def api_delay (attempt : Nat) : ℚ :=
  min ((2 : ℚ) ^ attempt + (attempt : ℚ) / 10) 60

/-- One `session.get` of the `api.py` fetch. -/
def api_request_once (env : HttpEnv) (t : ATrace) : Except Unit HttpResp × ATrace :=
  (env.resp t.req, { t with req := t.req + 1, gets := t.gets + 1 })

/-- The 401/403 handling of `api.py`: on 401/403, one `login(force=True)`
(its own errors swallowed) followed by one repetition of the same request;
a second 401/403 raises `AuthError`. -/
def api_get_with_relogin (env : HttpEnv) (t : ATrace) : Except AErr HttpResp × ATrace :=
  match api_request_once env t with
  | (.error _, t) => (.error .net, t)
  | (.ok r, t) =>
    if r.status = 401 ∨ r.status = 403 then
      let t := { t with logins := t.logins + 1 }
      match api_request_once env t with
      | (.error _, t) => (.error .net, t)
      | (.ok r2, t) =>
        if r2.status = 401 ∨ r2.status = 403 then (.error .auth, t)
        else (.ok r2, t)
    else (.ok r, t)

/-- The body of one attempt of `api.py` `_get_json_via_download`: link
request (with re-login handling), status and JSON checks, `link` extraction
(`if not download_link` also rejects an empty string), then the payload
download (with the same re-login handling and checks). -/
def api_attempt (env : HttpEnv) (t : ATrace) : Except AErr Nat × ATrace :=
  match api_get_with_relogin env t with
  | (.error e, t) => (.error e, t)
  | (.ok r, t) =>
    if r.status ≠ 200 then (.error .api, t)
    else if r.isJson = false then (.error .api, t)
    else
      match r.link with
      | none => (.error .api, t)
      | some l =>
        if l = "" then (.error .api, t)
        else
          match api_get_with_relogin env t with
          | (.error e, t) => (.error e, t)
          | (.ok d, t) =>
            if d.status ≠ 200 then (.error .api, t)
            else if d.isJson = false then (.error .api, t)
            else (.ok d.payload, t)

/-- The retry loop of `api.py` `_get_json_via_download`: any inner exception
at the last attempt is re-raised as a network error or wrapped into a plain
`APIError("Max retries exceeded ...")`; earlier attempts sleep and retry. -/
def api_fetch_go (env : HttpEnv) (attempt fuel : Nat) (t : ATrace) :
    Except AFetchErr Nat × ATrace :=
  match fuel with
  | 0 => (.error .apiExhausted, t)
  | fuel' + 1 =>
    let t := { t with attempts := t.attempts + 1 }
    match api_attempt env t with
    | (.ok v, t) => (.ok v, t)
    | (.error e, t) =>
      if fuel' = 0 then
        match e with
        | .net => (.error .netRaise, t)
        | _ => (.error (.apiMaxRetries e), t)
      else
        api_fetch_go env (attempt + 1) fuel'
          { t with sleeps := t.sleeps ++ [api_delay attempt] }

/-- `IRacingClient._get_json_via_download` of `src/iracing/api.py`:
`max_retries = 5`, fresh counters. -/
def api_get_json_via_download (env : HttpEnv) : Except AFetchErr Nat × ATrace :=
  api_fetch_go env 0 5 ⟨0, 0, 0, 0, []⟩

/-- An upstream that answers HTTP 429 to every request. -/
def always429Env : HttpEnv := ⟨fun _ => .ok ⟨429, true, none, 0⟩⟩

/-- An upstream that answers HTTP 401 to every request, including the
retries performed after each re-login. -/
def always401Env : HttpEnv := ⟨fun _ => .ok ⟨401, true, none, 0⟩⟩

/-! ## Basic association-list lemmas -/

theorem lookupVal_append {β : Type} (k : Int) (l₁ l₂ : List (Int × β)) :
    lookupVal k (l₁ ++ l₂) =
      match lookupVal k l₁ with
      | some v => some v
      | none => lookupVal k l₂ := by
  induction l₁ with
  | nil => simp [lookupVal]
  | cons hd t ih =>
    obtain ⟨k₀, v₀⟩ := hd
    by_cases hk : k₀ = k <;> simp [lookupVal, hk, ih]

theorem lookupVal_removeKey_other {β : Type} {k k' : Int} (hne : k' ≠ k)
    (l : List (Int × β)) : lookupVal k' (removeKey k l) = lookupVal k' l := by
  induction l with
  | nil => rfl
  | cons hd t ih =>
    obtain ⟨k₀, v₀⟩ := hd
    by_cases h₀ : k₀ = k
    · have h₁ : k₀ ≠ k' := by omega
      have h₂ : k ≠ k' := by omega
      simp [removeKey, lookupVal, h₀, h₁, h₂, ih]
    · by_cases h₁ : k₀ = k' <;> simp [removeKey, lookupVal, h₀, h₁, hne, ih]

theorem lookupVal_not_mem {β : Type} {k : Int} {l : List (Int × β)}
    (h : k ∉ l.map Prod.fst) : lookupVal k l = none := by
  induction l with
  | nil => rfl
  | cons hd t ih =>
    obtain ⟨k₀, v₀⟩ := hd
    simp only [List.map_cons, List.mem_cons] at h
    push_neg at h
    have : k₀ ≠ k := fun he => h.1 (by simp [he])
    simp [lookupVal, this, ih h.2]

theorem lookupVal_removeKey_self {β : Type} (k : Int) (l : List (Int × β)) :
    lookupVal k (removeKey k l) = none := by
  induction l with
  | nil => rfl
  | cons hd t ih =>
    obtain ⟨k₀, v₀⟩ := hd
    by_cases hk : k₀ = k
    · simp [removeKey, hk, ih]
    · simp [removeKey, lookupVal, hk, ih]

theorem lookupVal_upsert_self {β : Type} (k : Int) (v : β) (l : List (Int × β)) :
    lookupVal k (upsert k v l) = some v := by
  rw [upsert, lookupVal_append, lookupVal_removeKey_self]
  simp [lookupVal]

theorem lookupVal_upsert_other {β : Type} {k k' : Int} (hne : k' ≠ k) (v : β)
    (l : List (Int × β)) : lookupVal k' (upsert k v l) = lookupVal k' l := by
  rw [upsert, lookupVal_append, lookupVal_removeKey_other hne]
  cases h : lookupVal k' l with
  | some v' => rfl
  | none =>
    have : k ≠ k' := by omega
    simp [lookupVal, this]

theorem lookupVal_mem {β : Type} {k : Int} {l : List (Int × β)}
    (h : k ∈ l.map Prod.fst) : ∃ v, lookupVal k l = some v := by
  induction l with
  | nil => simp at h
  | cons hd t ih =>
    obtain ⟨k₀, v₀⟩ := hd
    by_cases hk : k₀ = k
    · exact ⟨v₀, by simp [lookupVal, hk]⟩
    · simp only [List.map_cons, List.mem_cons] at h
      rcases h with h | h
      · exact absurd h.symm hk
      · obtain ⟨v, hv⟩ := ih h
        exact ⟨v, by simp [lookupVal, hk, hv]⟩

theorem hasKey_iff_mem {β : Type} (k : Int) (l : List (Int × β)) :
    hasKey k l = true ↔ k ∈ l.map Prod.fst := by
  constructor
  · intro h
    by_contra hmem
    rw [hasKey, lookupVal_not_mem hmem] at h
    simp at h
  · intro h
    obtain ⟨v, hv⟩ := lookupVal_mem h
    simp [hasKey, hv]

theorem removeKey_not_mem {β : Type} (k : Int) (l : List (Int × β)) :
    k ∉ (removeKey k l).map Prod.fst := by
  induction l with
  | nil => simp [removeKey]
  | cons hd t ih =>
    obtain ⟨k₀, v₀⟩ := hd
    by_cases hk : k₀ = k
    · simpa [removeKey, hk] using ih
    · have hk' : k ≠ k₀ := by omega
      simp [removeKey, hk, ih, hk']

theorem removeKey_of_not_mem {β : Type} {k : Int} {l : List (Int × β)}
    (h : k ∉ l.map Prod.fst) : removeKey k l = l := by
  induction l with
  | nil => rfl
  | cons hd t ih =>
    obtain ⟨k₀, v₀⟩ := hd
    simp only [List.map_cons, List.mem_cons] at h
    push_neg at h
    have : k₀ ≠ k := fun he => h.1 (by simp [he])
    simp [removeKey, this, ih h.2]

theorem mem_removeKey {β : Type} {k : Int} {p : Int × β} {l : List (Int × β)}
    (h : p ∈ removeKey k l) : p ∈ l ∧ p.1 ≠ k := by
  induction l with
  | nil => simp [removeKey] at h
  | cons hd t ih =>
    obtain ⟨k₀, v₀⟩ := hd
    by_cases hk : k₀ = k
    · simp only [removeKey, hk, if_pos rfl] at h
      obtain ⟨h₁, h₂⟩ := ih h
      exact ⟨List.mem_cons_of_mem _ h₁, h₂⟩
    · simp only [removeKey, if_neg hk, List.mem_cons] at h
      rcases h with h | h
      · subst h; exact ⟨List.mem_cons.mpr (Or.inl rfl), hk⟩
      · obtain ⟨h₁, h₂⟩ := ih h
        exact ⟨List.mem_cons_of_mem _ h₁, h₂⟩

theorem mem_removeKey_of_mem {β : Type} {k : Int} {p : Int × β} {l : List (Int × β)}
    (hp : p ∈ l) (hne : p.1 ≠ k) : p ∈ removeKey k l := by
  induction l with
  | nil => simp at hp
  | cons hd t ih =>
    obtain ⟨k₀, v₀⟩ := hd
    rcases List.mem_cons.mp hp with h | h
    · subst h
      simp [removeKey, if_neg hne]
    · by_cases hk : k₀ = k
      · simpa [removeKey, hk] using ih h
      · simp [removeKey, hk, ih h]

theorem removeKey_sublist {β : Type} (k : Int) (l : List (Int × β)) :
    (removeKey k l).Sublist l := by
  induction l with
  | nil => simp [removeKey]
  | cons hd t ih =>
    obtain ⟨k₀, v₀⟩ := hd
    by_cases hk : k₀ = k
    · simpa [removeKey, hk] using ih.cons (k₀, v₀)
    · simpa [removeKey, hk] using ih.cons₂ (k₀, v₀)

theorem length_removeKey_of_mem {β : Type} {k : Int} {l : List (Int × β)}
    (hnd : (l.map Prod.fst).Nodup) (hmem : k ∈ l.map Prod.fst) :
    (removeKey k l).length + 1 = l.length := by
  induction l with
  | nil => simp at hmem
  | cons hd t ih =>
    obtain ⟨k₀, v₀⟩ := hd
    simp only [List.map_cons, List.nodup_cons] at hnd
    by_cases hk : k₀ = k
    · subst hk
      have : removeKey k₀ t = t := removeKey_of_not_mem hnd.1
      simp [removeKey, this]
    · simp only [List.map_cons, List.mem_cons] at hmem
      rcases hmem with h | h
      · exact absurd h.symm hk
      · have := ih hnd.2 h
        simp only [removeKey, if_neg hk, List.length_cons]
        omega

theorem nodup_keys_removeKey {β : Type} (k : Int) {l : List (Int × β)}
    (h : (l.map Prod.fst).Nodup) : ((removeKey k l).map Prod.fst).Nodup :=
  h.sublist ((removeKey_sublist k l).map Prod.fst)

theorem nodup_keys_upsert {β : Type} (k : Int) (v : β) {l : List (Int × β)}
    (h : (l.map Prod.fst).Nodup) : ((upsert k v l).map Prod.fst).Nodup := by
  rw [upsert, List.map_append]
  rw [List.nodup_append]
  refine ⟨nodup_keys_removeKey k h, by simp, ?_⟩
  intro a ha hb
  simp only [List.map_cons, List.map_nil, List.mem_singleton] at hb
  exact removeKey_not_mem k l (hb ▸ ha)

theorem filter_key_removeKey {β : Type} (k : Int) (l : List (Int × β)) :
    (removeKey k l).filter (fun p => decide (p.1 = k)) = [] := by
  rw [List.filter_eq_nil_iff]
  intro p hp
  have := (mem_removeKey hp).2
  simpa using this


/-! ## Claim C2: mark_posted followed by was_posted -/

/-- C2: for every `(subsession_id, cust_id, guild_id)` triple, `mark_posted`
on that key followed by `was_posted` on the same key returns true — from any
prior dedupe state; starting from the freshly initialised store, `was_posted`
on any other key (one differing in at least one component) returns false. -/
theorem claim_C2_mark_then_was_posted (st : RepoState) (s c g s' c' g' : Int)
    (hne : ((s, c, g) : PostKey) ≠ (s', c', g')) :
    was_posted (mark_posted st s c g) s c g = true ∧
    was_posted (mark_posted emptyRepo s c g) s' c' g' = false := by
  constructor
  · simp only [was_posted, mark_posted, decide_eq_true_eq]
    by_cases h : ((s, c, g) : PostKey) ∈ st.posted <;> simp [h]
  · have hpost : (mark_posted emptyRepo s c g).posted = [(s, c, g)] := by
      simp [mark_posted, emptyRepo]
    simp only [was_posted, hpost, decide_eq_false_iff_not, List.mem_singleton]
    intro h
    exact hne h.symm

/-- Witness for C2 at the concrete keys (1, 2, 3) and (1, 2, 4). -/
theorem claim_C2_mark_then_was_posted_witness :
    was_posted (mark_posted emptyRepo 1 2 3) 1 2 3 = true ∧
    was_posted (mark_posted emptyRepo 1 2 3) 1 2 4 = false :=
  claim_C2_mark_then_was_posted emptyRepo 1 2 3 1 2 4 (by decide)

/-! ## Claim C9: tracked drivers are unique by cust_id, process-wide -/

theorem nodup_tracked_keys_apply_track_ops (ops : List TrackOp) :
    ∀ st : RepoState, (tracked_keys st).Nodup →
      (tracked_keys (apply_track_ops st ops)).Nodup := by
  induction ops with
  | nil => intro st h; exact h
  | cons op rest ih =>
    intro st h
    refine ih _ ?_
    cases op with
    | add c n => exact nodup_keys_upsert c n h
    | remove c => exact nodup_keys_removeKey c h

/-- C9: the tracked-driver table is keyed by cust_id alone (process-wide, no
guild column).  `add_tracked_driver` on an already-tracked cust_id replaces
the display_name, leaves exactly one row for that cust_id, leaves every other
cust_id untouched, and any sequence of add/remove operations preserves
uniqueness by cust_id. -/
theorem claim_C9_tracked_unique_by_cust_id (st : RepoState) (c : Int) (n : String) :
    lookupVal c (add_tracked_driver st c n).tracked = some n ∧
    key_count c (add_tracked_driver st c n).tracked = 1 ∧
    (∀ c', c' ≠ c →
      lookupVal c' (add_tracked_driver st c n).tracked = lookupVal c' st.tracked) ∧
    (∀ ops : List TrackOp, (tracked_keys st).Nodup →
      (tracked_keys (apply_track_ops st ops)).Nodup) := by
  refine ⟨?_, ?_, ?_, ?_⟩
  · exact lookupVal_upsert_self c n st.tracked
  · show key_count c (upsert c n st.tracked) = 1
    rw [key_count, upsert, List.filter_append, filter_key_removeKey]
    simp
  · intro c' hne
    exact lookupVal_upsert_other hne n st.tracked
  · intro ops h
    exact nodup_tracked_keys_apply_track_ops ops st h

/-- Witness for C9: track driver 7 twice with different names, remove 3. -/
theorem claim_C9_tracked_unique_by_cust_id_witness :
    lookupVal 7 (add_tracked_driver (add_tracked_driver emptyRepo 7 "Old") 7 "New").tracked
      = some "New" ∧
    key_count 7 (add_tracked_driver (add_tracked_driver emptyRepo 7 "Old") 7 "New").tracked = 1 ∧
    lookupVal 8 (add_tracked_driver (add_tracked_driver emptyRepo 7 "Old") 7 "New").tracked
      = lookupVal 8 (add_tracked_driver emptyRepo 7 "Old").tracked ∧
    (tracked_keys (apply_track_ops (add_tracked_driver emptyRepo 7 "Old")
      [TrackOp.add 3 "x", TrackOp.add 3 "y", TrackOp.remove 3])).Nodup := by
  obtain ⟨h1, h2, h3, h4⟩ :=
    claim_C9_tracked_unique_by_cust_id (add_tracked_driver emptyRepo 7 "Old") 7 "New"
  exact ⟨h1, h2, h3 8 (by decide),
    h4 [TrackOp.add 3 "x", TrackOp.add 3 "y", TrackOp.remove 3] (by decide)⟩

/-! ## Claim C10: remove_tracked_driver return value and frame -/

/-- C10: `remove_tracked_driver` returns true exactly when the cust_id was
tracked; on false the whole repository state is unchanged; it keeps every row
with a different cust_id, adds nothing, removes exactly one row when the keys
are unique and the cust_id is present, and never touches the other tables. -/
theorem claim_C10_remove_tracked_driver (st : RepoState) (c : Int) :
    ((remove_tracked_driver st c).1 = true ↔ c ∈ tracked_keys st) ∧
    ((remove_tracked_driver st c).1 = false → (remove_tracked_driver st c).2 = st) ∧
    (∀ p ∈ st.tracked, p.1 ≠ c → p ∈ (remove_tracked_driver st c).2.tracked) ∧
    (∀ p ∈ (remove_tracked_driver st c).2.tracked, p ∈ st.tracked ∧ p.1 ≠ c) ∧
    ((tracked_keys st).Nodup → c ∈ tracked_keys st →
      (remove_tracked_driver st c).2.tracked.length + 1 = st.tracked.length) ∧
    (remove_tracked_driver st c).2.channels = st.channels ∧
    (remove_tracked_driver st c).2.posted = st.posted ∧
    (remove_tracked_driver st c).2.pollState = st.pollState := by
  refine ⟨hasKey_iff_mem c st.tracked, ?_, ?_, ?_, ?_, rfl, rfl, rfl⟩
  · intro h
    have hmem : c ∉ tracked_keys st := by
      intro hc
      have := (hasKey_iff_mem c st.tracked).mpr hc
      rw [remove_tracked_driver] at h
      simp only at h
      rw [this] at h
      cases h
    show ({ st with tracked := removeKey c st.tracked } : RepoState) = st
    rw [removeKey_of_not_mem hmem]
  · intro p hp hne
    exact mem_removeKey_of_mem hp hne
  · intro p hp
    exact mem_removeKey hp
  · intro hnd hmem
    exact length_removeKey_of_mem hnd hmem

/-- Witness for C10: removing tracked driver 1 succeeds; removing untracked
driver 2 returns false and leaves the state unchanged. -/
theorem claim_C10_remove_tracked_driver_witness :
    (remove_tracked_driver ⟨[(1, "a")], [], [], []⟩ 1).1 = true ∧
    (remove_tracked_driver ⟨[(1, "a")], [], [], []⟩ 2).2 = ⟨[(1, "a")], [], [], []⟩ :=
  ⟨(claim_C10_remove_tracked_driver ⟨[(1, "a")], [], [], []⟩ 1).1.mpr (by decide),
   (claim_C10_remove_tracked_driver ⟨[(1, "a")], [], [], []⟩ 2).2.1 (by decide)⟩

/-! ## Claim C8: embed colour mapping -/

/-- C8: both renderers colour an embed purely by finish_pos — green for
positions up to 3, orange for 4 through 10, red above 10 — they agree on
every record, and 1, 5, 11 map to green, orange, red. -/
theorem claim_C8_embed_color_mapping (r r' : FinishRecord) :
    build_race_result_embed_color r = post_finish_embed_color r ∧
    (r.finish_pos = r'.finish_pos →
      build_race_result_embed_color r = build_race_result_embed_color r') ∧
    (r.finish_pos ≤ 3 → build_race_result_embed_color r = .green) ∧
    (4 ≤ r.finish_pos → r.finish_pos ≤ 10 →
      build_race_result_embed_color r = .orange) ∧
    (10 < r.finish_pos → build_race_result_embed_color r = .red) ∧
    build_race_result_embed_color { r with finish_pos := 1 } = .green ∧
    build_race_result_embed_color { r with finish_pos := 5 } = .orange ∧
    build_race_result_embed_color { r with finish_pos := 11 } = .red := by
  refine ⟨rfl, ?_, ?_, ?_, ?_, ?_, ?_, ?_⟩
  · intro h
    simp [build_race_result_embed_color, h]
  · intro h
    simp [build_race_result_embed_color, h]
  · intro h4 h10
    have h3 : ¬ r.finish_pos ≤ 3 := by omega
    simp [build_race_result_embed_color, h3, h10]
  · intro h
    have h3 : ¬ r.finish_pos ≤ 3 := by omega
    have h10 : ¬ r.finish_pos ≤ 10 := by omega
    simp [build_race_result_embed_color, h3, h10]
  · norm_num [build_race_result_embed_color]
  · norm_num [build_race_result_embed_color]
  · norm_num [build_race_result_embed_color]

/-- Witness for C8 at finish_pos 5: both renderers yield orange. -/
theorem claim_C8_embed_color_mapping_witness :
    build_race_result_embed_color { (default : FinishRecord) with finish_pos := 5 }
      = .orange ∧
    post_finish_embed_color { (default : FinishRecord) with finish_pos := 5 }
      = .orange := by
  have h := claim_C8_embed_color_mapping
    { (default : FinishRecord) with finish_pos := 5 }
    { (default : FinishRecord) with finish_pos := 5 }
  exact ⟨h.2.2.2.1 (by norm_num) (by norm_num),
    h.1.symm.trans (h.2.2.2.1 (by norm_num) (by norm_num))⟩

/-! ## Claim C6: a missing driver row skips the session -/

theorem find_row_eq_none {cust_id : Int} {rows : List ResultRow}
    (h : ∀ row ∈ rows, row.cust_id ≠ cust_id) : find_row cust_id rows = none := by
  induction rows with
  | nil => rfl
  | cons r t ih =>
    have hr : r.cust_id ≠ cust_id := h r (List.mem_cons.mpr (Or.inl rfl))
    simp only [find_row, if_neg hr]
    exact ih fun row hrow => h row (List.mem_cons_of_mem _ hrow)

/-- C6: when the fetched result sheet has no row for the tracked driver, the
session contributes no FinishRecord and no exception is raised — processing
simply continues with the remaining sessions. -/
theorem claim_C6_missing_driver_row_is_skipped (env : IREnv) (cust_id : Int)
    (display_name : String) (s : SessionInfo) (rest : List SessionInfo)
    (acc : List FinishRecord) (sheet : ResultSheet)
    (hres : env.get_subsession_results s.subsession_id = .ok (some sheet))
    (hno : ∀ row ∈ sheet.results, row.cust_id ≠ cust_id) :
    process_sessions env cust_id display_name (s :: rest) acc =
      process_sessions env cust_id display_name rest acc := by
  simp only [process_sessions, hres, find_row_eq_none hno]

/-- Witness for C6: driver 123456 is absent from the sheet, the session is
skipped and the run produces no records. -/
theorem claim_C6_missing_driver_row_is_skipped_witness :
    process_sessions sampleEnvNoRow 123456 "Test Driver" [sampleSession] [] =
      process_sessions sampleEnvNoRow 123456 "Test Driver" [] [] :=
  claim_C6_missing_driver_row_is_skipped sampleEnvNoRow 123456 "Test Driver"
    sampleSession [] [] sampleSheet rfl (by decide)

/-! ## Claim C5: the watermark is advanced to now, unconditionally -/

theorem lookup_foldl_set_last_poll (l : List (Int × String)) (c now : Int) :
    ∀ st : RepoState,
      (lookupVal c st.pollState = some now ∨ c ∈ l.map Prod.fst) →
      lookupVal c
        ((l.foldl (fun s p => set_last_poll_ts s p.1 now) st)).pollState = some now := by
  induction l with
  | nil =>
    intro st h
    rcases h with h | h
    · exact h
    · simp at h
  | cons hd t ih =>
    intro st h
    obtain ⟨k, n⟩ := hd
    simp only [List.foldl_cons]
    by_cases hk : k = c
    · refine ih _ (Or.inl ?_)
      subst hk
      exact lookupVal_upsert_self k now st.pollState
    · rcases h with h | h
      · refine ih _ (Or.inl ?_)
        have : c ≠ k := fun he => hk he.symm
        rw [set_last_poll_ts]
        simpa [lookupVal_upsert_other this] using h
      · simp only [List.map_cons, List.mem_cons] at h
        rcases h with h | h
        · exact absurd h.symm hk
        · exact ih _ (Or.inr h)

/-- C5: after a full `find_new_finishes_for_tracked` cycle, the stored
watermark of every tracked driver equals the cycle start time `now` — the
theorem quantifies over every environment, including ones whose fetches
raise — and hence, provided the clock did not run backwards, the watermark
never decreases. -/
theorem claim_C5_watermark_advanced_to_now (env : IREnv) (st : RepoState)
    (now cust_id : Int) (display_name : String)
    (hmem : (cust_id, display_name) ∈ st.tracked) :
    get_last_poll_ts (find_new_finishes_for_tracked env st now).2 cust_id = some now ∧
    (∀ prev, get_last_poll_ts st cust_id = some prev → prev ≤ now →
      ∀ v, get_last_poll_ts (find_new_finishes_for_tracked env st now).2 cust_id = some v →
        prev ≤ v) := by
  have hne : st.tracked.isEmpty = false := by
    cases h : st.tracked with
    | nil => rw [h] at hmem; simp at hmem
    | cons a t => rfl
  have hkey : cust_id ∈ st.tracked.map Prod.fst :=
    List.mem_map.mpr ⟨(cust_id, display_name), hmem, rfl⟩
  have hmain :
      get_last_poll_ts (find_new_finishes_for_tracked env st now).2 cust_id = some now := by
    rw [find_new_finishes_for_tracked]
    simp only [list_tracked, hne, Bool.false_eq_true, if_false]
    exact lookup_foldl_set_last_poll st.tracked cust_id now st (Or.inr hkey)
  refine ⟨hmain, ?_⟩
  intro prev _ hle v hv
  rw [hmain] at hv
  cases hv
  exact hle

/-- Witness for C5: driver 123456 has watermark 50; the cycle at now = 100
runs against an environment in which every fetch raises, and the watermark
still advances to 100. -/
theorem claim_C5_watermark_advanced_to_now_witness :
    get_last_poll_ts
      (find_new_finishes_for_tracked sampleErrEnv sampleTrackedRepo 100).2 123456
      = some 100 ∧ (50 : Int) ≤ 100 := by
  have h := claim_C5_watermark_advanced_to_now sampleErrEnv sampleTrackedRepo 100
    123456 "Test Driver" (by decide)
  exact ⟨h.1, h.2 50 rfl (by norm_num) 100 h.1⟩

/-! ## Claim C7: fetch_last_official_result — functional and frame -/

theorem fetch_sessions_loop_spec (env : IREnv) (cust_id : Int) :
    ∀ l : List SessionInfo,
      (∀ s ∈ l, ∃ sheet, env.get_subsession_results s.subsession_id = .ok (some sheet)) →
      fetch_sessions_loop env cust_id l =
        (l.find? (fun s => s.official && has_driver_row env cust_id s)).map
          (last_record_of env cust_id) := by
  intro l
  induction l with
  | nil => intro _; rfl
  | cons s rest ih =>
    intro hall
    obtain ⟨sheet, hs⟩ := hall s (List.mem_cons.mpr (Or.inl rfl))
    have hrest : ∀ t ∈ rest, ∃ sh, env.get_subsession_results t.subsession_id = .ok (some sh) :=
      fun t ht => hall t (List.mem_cons_of_mem _ ht)
    have hdr : has_driver_row env cust_id s = (find_row cust_id sheet.results).isSome := by
      rw [has_driver_row, hs]
    cases hfind : find_row cust_id sheet.results with
    | none =>
      have hpred : ¬ (s.official && has_driver_row env cust_id s) = true := by
        rw [hdr, hfind]
        simp
      have hrw : List.find? (fun t => t.official && has_driver_row env cust_id t) (s :: rest)
          = List.find? (fun t => t.official && has_driver_row env cust_id t) rest :=
        List.find?_cons_of_neg rest hpred
      rw [hrw]
      simp only [fetch_sessions_loop, hs, hfind]
      exact ih hrest
    | some row =>
      have hdr' : has_driver_row env cust_id s = true := by rw [hdr, hfind]; rfl
      cases hoff : s.official with
      | false =>
        have hpred : ¬ (s.official && has_driver_row env cust_id s) = true := by
          rw [hoff]; simp
        have hrw : List.find? (fun t => t.official && has_driver_row env cust_id t) (s :: rest)
            = List.find? (fun t => t.official && has_driver_row env cust_id t) rest :=
          List.find?_cons_of_neg rest hpred
        rw [hrw]
        simp only [fetch_sessions_loop, hs, hfind, hoff, Bool.false_eq_true, if_false]
        exact ih hrest
      | true =>
        have hpred : (s.official && has_driver_row env cust_id s) = true := by
          rw [hoff, hdr']; rfl
        have hrw : List.find? (fun t => t.official && has_driver_row env cust_id t) (s :: rest)
            = some s :=
          List.find?_cons_of_pos rest hpred
        rw [hrw]
        simp only [fetch_sessions_loop, hs, hfind, hoff, if_true]
        show some (record_of_last cust_id s sheet row) = some (last_record_of env cust_id s)
        simp only [last_record_of, hs, hfind]

/-- C7: `fetch_last_official_result` never touches the repository — lifted to
a repository-state transformer it is the identity on the state — and, when
the search succeeds and every result-sheet fetch succeeds, it returns the
record of the most recent session (last in the chronological list, first in
the reversed scan) that is official and contains a row for the driver, or
none when there is no such session. -/
theorem claim_C7_fetch_last_official_result (st : RepoState) (env : IREnv)
    (now cust_id : Int) (sessions : List SessionInfo)
    (hpos : 0 < cust_id)
    (hsearch : env.search_recent_sessions cust_id (now - 7 * 24 * 3600) now = .ok sessions)
    (hall : ∀ s ∈ sessions, ∃ sheet,
      env.get_subsession_results s.subsession_id = .ok (some sheet)) :
    (fetch_last_official_result_run st env now cust_id).2 = st ∧
    (fetch_last_official_result_run st env now cust_id).1 =
      .ok ((sessions.reverse.find?
        (fun s => s.official && has_driver_row env cust_id s)).map
          (last_record_of env cust_id)) := by
  refine ⟨rfl, ?_⟩
  have hnpos : ¬ cust_id ≤ 0 := by omega
  show fetch_last_official_result env now cust_id = _
  rw [fetch_last_official_result, if_neg hnpos, hsearch]
  cases sessions with
  | nil => rfl
  | cons s rest =>
    simp only [List.isEmpty_cons, Bool.false_eq_true, if_false]
    rw [fetch_sessions_loop_spec env cust_id _
      (fun t ht => hall t (List.mem_reverse.mp ht))]

/-- Witness for C7: one official session containing driver 123456; the state
is untouched and the record of that session is returned. -/
theorem claim_C7_fetch_last_official_result_witness :
    (fetch_last_official_result_run emptyRepo sampleEnvDriver 100 123456).2 = emptyRepo ∧
    (fetch_last_official_result_run emptyRepo sampleEnvDriver 100 123456).1 =
      .ok (some (record_of_last 123456 sampleSession sampleSheetDriver sampleRowDriver)) := by
  have h := claim_C7_fetch_last_official_result emptyRepo sampleEnvDriver 100 123456
    [sampleSession] (by norm_num) rfl
    (fun s _ => ⟨sampleSheetDriver, rfl⟩)
  refine ⟨h.1, h.2.trans ?_⟩
  rfl

/-! ## Claim C1: at-most-once posting per (subsession_id, cust_id, guild) -/

/-- One guild-step of `process_and_post_results` does exactly one of three
things: nothing, a failed send (tick bump only), or a successful send that is
immediately marked — and the successful branch only fires when the key was
not posted. -/
theorem post_record_to_guild_cases (sendOk : Nat → Bool) (record : FinishRecord)
    (p : PostRun) (guild_id : Int) :
    post_record_to_guild sendOk record p guild_id = p ∨
    post_record_to_guild sendOk record p guild_id = { p with tick := p.tick + 1 } ∨
    (((record.subsession_id, record.cust_id, guild_id) : PostKey) ∉ p.st.posted ∧
      post_record_to_guild sendOk record p guild_id =
        { st := mark_posted p.st record.subsession_id record.cust_id guild_id
          tick := p.tick + 1
          count := p.count + 1
          sends := p.sends ++ [(record.subsession_id, record.cust_id, guild_id)] }) := by
  by_cases h1 : was_posted p.st record.subsession_id record.cust_id guild_id = true
  · left
    simp [post_record_to_guild, h1]
  · have hnot : ((record.subsession_id, record.cust_id, guild_id) : PostKey) ∉ p.st.posted := by
      simpa [was_posted] using h1
    cases h2 : get_channel_for_guild p.st guild_id with
    | none =>
      left
      simp [post_record_to_guild, h1, h2]
    | some ch =>
      by_cases h3 : ch = 0
      · left
        simp [post_record_to_guild, h1, h2, h3]
      · by_cases h4 : sendOk p.tick = true
        · refine Or.inr (Or.inr ⟨hnot, ?_⟩)
          simp [post_record_to_guild, h1, h2, h3, h4]
        · refine Or.inr (Or.inl ?_)
          simp [post_record_to_guild, h1, h2, h3, h4]

/-- `mark_posted` only grows the dedupe table. -/
theorem mem_posted_mark_posted {key : PostKey} {st : RepoState}
    (h : key ∈ st.posted) (s c g : Int) : key ∈ (mark_posted st s c g).posted := by
  rw [mark_posted]
  by_cases hm : ((s, c, g) : PostKey) ∈ st.posted
  · simpa [hm] using h
  · simp only [hm, if_false]
    exact List.mem_append_left _ h

/-- `mark_posted` on a fresh key appends exactly that key. -/
theorem mark_posted_of_not_mem {st : RepoState} {s c g : Int}
    (h : ((s, c, g) : PostKey) ∉ st.posted) :
    (mark_posted st s c g).posted = st.posted ++ [(s, c, g)] := by
  simp [mark_posted, h]

/-- A fold preserves any invariant its step preserves. -/
theorem foldl_preserves {α : Type} (P : PostRun → Prop) (f : PostRun → α → PostRun)
    (hf : ∀ p a, P p → P (f p a)) :
    ∀ (l : List α) (p : PostRun), P p → P (l.foldl f p) := by
  intro l
  induction l with
  | nil => intro p h; exact h
  | cons a t ih =>
    intro p h
    exact ih _ (hf p a h)

/-- The guild-step invariant: relative to an already-sent prefix `pre`, every
key is sent at most once and every sent key is marked in the dedupe table. -/
theorem post_record_to_guild_send_inv (sendOk : Nat → Bool) (record : FinishRecord)
    (guild_id : Int) (pre : List PostKey) (p : PostRun)
    (h : ∀ k : PostKey, (pre ++ p.sends).count k ≤ 1 ∧
      (k ∈ pre ++ p.sends → k ∈ p.st.posted)) :
    ∀ k : PostKey,
      (pre ++ (post_record_to_guild sendOk record p guild_id).sends).count k ≤ 1 ∧
      (k ∈ pre ++ (post_record_to_guild sendOk record p guild_id).sends →
        k ∈ (post_record_to_guild sendOk record p guild_id).st.posted) := by
  rcases post_record_to_guild_cases sendOk record p guild_id with hc | hc | ⟨hnot, hc⟩
  · rw [hc]; exact h
  · rw [hc]; exact h
  · rw [hc]
    intro k
    simp only
    have hfresh : ((record.subsession_id, record.cust_id, guild_id) : PostKey)
        ∉ pre ++ p.sends := fun hm => hnot ((h _).2 hm)
    rw [mark_posted_of_not_mem hnot, ← List.append_assoc]
    by_cases hk : k = (record.subsession_id, record.cust_id, guild_id)
    · subst hk
      constructor
      · rw [List.count_append, List.count_eq_zero_of_not_mem hfresh,
          List.count_singleton_self]
      · intro _
        exact List.mem_append_right _ (List.mem_singleton.mpr rfl)
    · constructor
      · rw [List.count_append]
        have hz : List.count k [((record.subsession_id, record.cust_id, guild_id) : PostKey)]
            = 0 :=
          List.count_eq_zero_of_not_mem (by simpa using hk)
        rw [hz]
        simpa using (h k).1
      · intro hm
        rcases List.mem_append.mp hm with hm | hm
        · exact List.mem_append_left _ ((h k).2 hm)
        · exact absurd (List.mem_singleton.mp hm) hk

/-- The guild-step keeps the per-key dedupe-row bound `max (initial, 1)`. -/
theorem post_record_to_guild_posted_bound (sendOk : Nat → Bool) (record : FinishRecord)
    (guild_id : Int) (base : List PostKey) (p : PostRun)
    (h : ∀ k : PostKey, p.st.posted.count k ≤ max (base.count k) 1) :
    ∀ k : PostKey,
      (post_record_to_guild sendOk record p guild_id).st.posted.count k
        ≤ max (base.count k) 1 := by
  rcases post_record_to_guild_cases sendOk record p guild_id with hc | hc | ⟨hnot, hc⟩
  · rw [hc]; exact h
  · rw [hc]; exact h
  · rw [hc]
    intro k
    simp only
    rw [mark_posted_of_not_mem hnot, List.count_append]
    by_cases hk : k = (record.subsession_id, record.cust_id, guild_id)
    · subst hk
      rw [List.count_eq_zero_of_not_mem hnot, List.count_singleton_self]
      omega
    · have hz : List.count k [((record.subsession_id, record.cust_id, guild_id) : PostKey)]
          = 0 :=
        List.count_eq_zero_of_not_mem (by simpa using hk)
      rw [hz]
      simpa using h k

/-- The guild-step never touches the channel table. -/
theorem post_record_to_guild_channels (sendOk : Nat → Bool) (record : FinishRecord)
    (guild_id : Int) (p : PostRun) :
    (post_record_to_guild sendOk record p guild_id).st.channels = p.st.channels := by
  rcases post_record_to_guild_cases sendOk record p guild_id with hc | hc | ⟨-, hc⟩ <;>
    simp [hc, mark_posted]

/-- A whole `process_and_post_results` run preserves the send invariant
relative to a prefix of earlier sends already marked in the store. -/
theorem process_and_post_results_send_inv (sendOk : Nat → Bool) (st : RepoState)
    (tick : Nat) (records : List FinishRecord) (pre : List PostKey)
    (hpre : ∀ k : PostKey, pre.count k ≤ 1 ∧ (k ∈ pre → k ∈ st.posted)) :
    ∀ k : PostKey,
      (pre ++ (process_and_post_results sendOk st tick records).sends).count k ≤ 1 ∧
      (k ∈ pre ++ (process_and_post_results sendOk st tick records).sends →
        k ∈ (process_and_post_results sendOk st tick records).st.posted) := by
  have hinit : ∀ k : PostKey,
      (pre ++ (⟨st, tick, 0, []⟩ : PostRun).sends).count k ≤ 1 ∧
      (k ∈ pre ++ (⟨st, tick, 0, []⟩ : PostRun).sends →
        k ∈ (⟨st, tick, 0, []⟩ : PostRun).st.posted) := by
    intro k
    simpa using hpre k
  exact foldl_preserves
    (fun p => ∀ k : PostKey, (pre ++ p.sends).count k ≤ 1 ∧
      (k ∈ pre ++ p.sends → k ∈ p.st.posted))
    (post_record sendOk (list_guilds_with_channel st))
    (fun p r hp => foldl_preserves
      (fun q => ∀ k : PostKey, (pre ++ q.sends).count k ≤ 1 ∧
        (k ∈ pre ++ q.sends → k ∈ q.st.posted))
      (post_record_to_guild sendOk r)
      (fun q g hq => post_record_to_guild_send_inv sendOk r g pre q hq)
      (list_guilds_with_channel st) p hp)
    records ⟨st, tick, 0, []⟩ hinit

/-- A whole `process_and_post_results` run keeps every dedupe key at
multiplicity at most `max (initial, 1)`. -/
theorem process_and_post_results_posted_bound (sendOk : Nat → Bool) (st : RepoState)
    (tick : Nat) (records : List FinishRecord) (base : List PostKey)
    (h : ∀ k : PostKey, st.posted.count k ≤ max (base.count k) 1) :
    ∀ k : PostKey,
      (process_and_post_results sendOk st tick records).st.posted.count k
        ≤ max (base.count k) 1 :=
  foldl_preserves
    (fun p => ∀ k : PostKey, p.st.posted.count k ≤ max (base.count k) 1)
    (post_record sendOk (list_guilds_with_channel st))
    (fun p r hp => foldl_preserves
      (fun q => ∀ k : PostKey, q.st.posted.count k ≤ max (base.count k) 1)
      (post_record_to_guild sendOk r)
      (fun q g hq => post_record_to_guild_posted_bound sendOk r g base q hq)
      (list_guilds_with_channel st) p hp)
    records ⟨st, tick, 0, []⟩ h

/-- C1: running `process_and_post_results` twice in succession with the same
record list — from any initial dedupe state and any send oracle — performs at
most one successful send per `(subsession_id, cust_id, guild_id)` key in
total, because a record is sent only when `was_posted` is false and
`mark_posted` runs right after the successful send; consequently the
`posted_results` state never accumulates more than one row per key beyond
what the initial state already held. -/
theorem claim_C1_process_and_post_results_idempotent (sendOk : Nat → Bool)
    (st : RepoState) (tick : Nat) (records : List FinishRecord) (k : PostKey) :
    ((process_and_post_results sendOk st tick records).sends ++
      (process_and_post_results sendOk
        (process_and_post_results sendOk st tick records).st
        (process_and_post_results sendOk st tick records).tick records).sends).count k
      ≤ 1 ∧
    (process_and_post_results sendOk
      (process_and_post_results sendOk st tick records).st
      (process_and_post_results sendOk st tick records).tick records).st.posted.count k
      ≤ max (st.posted.count k) 1 := by
  have h1 := process_and_post_results_send_inv sendOk st tick records []
    (fun _ => ⟨by simp, by simp⟩)
  have hpre : ∀ k : PostKey,
      (process_and_post_results sendOk st tick records).sends.count k ≤ 1 ∧
      (k ∈ (process_and_post_results sendOk st tick records).sends →
        k ∈ (process_and_post_results sendOk st tick records).st.posted) := by
    intro k
    simpa using h1 k
  have h2 := process_and_post_results_send_inv sendOk
    (process_and_post_results sendOk st tick records).st
    (process_and_post_results sendOk st tick records).tick records
    (process_and_post_results sendOk st tick records).sends hpre
  refine ⟨(h2 k).1, ?_⟩
  have hb1 := process_and_post_results_posted_bound sendOk st tick records st.posted
    (fun k => le_max_left _ _)
  exact process_and_post_results_posted_bound sendOk
    (process_and_post_results sendOk st tick records).st
    (process_and_post_results sendOk st tick records).tick records st.posted hb1 k

/-! ## Claim C3: exactly 5 attempts under persistent 429/5xx -/

theorem map_range_shift (f : Nat → ℚ) (a n : Nat) :
    (List.range (n + 1)).map (fun j => f (a + j)) =
      f a :: (List.range n).map (fun j => f (a + 1 + j)) := by
  rw [List.range_succ_eq_map, List.map_cons, List.map_map]
  refine congrArg₂ List.cons (by simp) ?_
  apply List.map_congr_left
  intro j _
  show f (a + (j + 1)) = f (a + 1 + j)
  congr 1
  omega

theorem ctrace_step (tr : CTrace) (attempt fuel' : Nat) :
    (⟨tr.attempts + 1 + fuel',
      (tr.sleeps ++ [client_delay attempt]) ++
        (List.range fuel').map (fun j => client_delay (attempt + 1 + j))⟩ : CTrace) =
    ⟨tr.attempts + (fuel' + 1),
      tr.sleeps ++ (List.range (fuel' + 1)).map (fun j => client_delay (attempt + j))⟩ := by
  rw [CTrace.mk.injEq]
  refine ⟨by omega, ?_⟩
  rw [List.append_assoc, map_range_shift]
  rfl

/-- Under persistent 429/5xx every iteration of the `client.py` loop sleeps
and retries, and the loop ends in the post-loop raise. -/
theorem client_fetch_go_retryable (env : HttpEnv)
    (h : ∀ i, ∃ r, env.resp i = .ok r ∧ (r.status = 429 ∨ 500 ≤ r.status)) :
    ∀ (fuel req attempt : Nat) (tr : CTrace),
      client_fetch_go env req attempt fuel tr =
        (.error .maxRetriesExceeded,
          ⟨tr.attempts + fuel,
            tr.sleeps ++ (List.range fuel).map (fun j => client_delay (attempt + j))⟩) := by
  intro fuel
  induction fuel with
  | zero =>
    intro req attempt tr
    simp [client_fetch_go]
  | succ fuel' ih =>
    intro req attempt tr
    obtain ⟨r, hr, hst⟩ := h req
    simp only [client_fetch_go, hr]
    rcases hst with hst | hst
    · rw [if_pos hst, ih]
      rw [ctrace_step]
    · rw [if_neg (by omega), if_pos hst, ih]
      rw [ctrace_step]

theorem atrace_step (t : ATrace) (attempt n' : Nat) :
    (⟨t.req + 1 + (n' + 1), t.gets + 1 + (n' + 1), t.logins, t.attempts + 1 + (n' + 1),
      (t.sleeps ++ [api_delay attempt]) ++
        (List.range n').map (fun j => api_delay (attempt + 1 + j))⟩ : ATrace) =
    ⟨t.req + (n' + 1 + 1), t.gets + (n' + 1 + 1), t.logins, t.attempts + (n' + 1 + 1),
      t.sleeps ++ (List.range (n' + 1)).map (fun j => api_delay (attempt + j))⟩ := by
  rw [ATrace.mk.injEq]
  refine ⟨by omega, by omega, rfl, by omega, ?_⟩
  rw [List.append_assoc, map_range_shift]
  rfl

/-- Under a 429/5xx response, one `api.py` attempt performs exactly one
request and raises a generic `APIError`. -/
theorem api_attempt_retryable (env : HttpEnv) (t : ATrace) {r : HttpResp}
    (hr : env.resp t.req = .ok r) (hst : r.status = 429 ∨ 500 ≤ r.status) :
    api_attempt env t = (.error .api, { t with req := t.req + 1, gets := t.gets + 1 }) := by
  have h1 : ¬ (r.status = 401 ∨ r.status = 403) := by rcases hst with h | h <;> omega
  have h2 : r.status ≠ 200 := by rcases hst with h | h <;> omega
  rw [api_attempt, api_get_with_relogin, api_request_once, hr]
  simp only [if_neg h1, if_pos h2]

/-- A non-final `api.py` iteration under a 429/5xx response: one request,
one sleep, then the next iteration. -/
theorem api_fetch_go_step (env : HttpEnv) (attempt : Nat) {fuel' : Nat}
    (hne : fuel' ≠ 0) (t : ATrace) {r : HttpResp}
    (hr : env.resp t.req = .ok r) (hst : r.status = 429 ∨ 500 ≤ r.status) :
    api_fetch_go env attempt (fuel' + 1) t =
      api_fetch_go env (attempt + 1) fuel'
        ⟨t.req + 1, t.gets + 1, t.logins, t.attempts + 1,
          t.sleeps ++ [api_delay attempt]⟩ := by
  have hatt := api_attempt_retryable env { t with attempts := t.attempts + 1 }
    (by simpa using hr) hst
  simp only [api_fetch_go, hatt]
  rw [if_neg hne]

/-- The final `api.py` iteration under a 429/5xx response wraps the inner
`APIError` into `APIError("Max retries exceeded ...")`. -/
theorem api_fetch_go_last (env : HttpEnv) (attempt : Nat) (t : ATrace) {r : HttpResp}
    (hr : env.resp t.req = .ok r) (hst : r.status = 429 ∨ 500 ≤ r.status) :
    api_fetch_go env attempt 1 t =
      (.error (.apiMaxRetries .api),
        ⟨t.req + 1, t.gets + 1, t.logins, t.attempts + 1, t.sleeps⟩) := by
  have hatt := api_attempt_retryable env { t with attempts := t.attempts + 1 }
    (by simpa using hr) hst
  simp only [api_fetch_go, hatt]
  simp

/-- Under persistent 429/5xx every iteration of the `api.py` loop raises the
generic `APIError`, sleeps and retries; the last attempt wraps it in
`APIError("Max retries exceeded ...")`. -/
theorem api_fetch_go_retryable (env : HttpEnv)
    (h : ∀ i, ∃ r, env.resp i = .ok r ∧ (r.status = 429 ∨ 500 ≤ r.status)) :
    ∀ (n attempt : Nat) (t : ATrace),
      api_fetch_go env attempt (n + 1) t =
        (.error (.apiMaxRetries .api),
          ⟨t.req + (n + 1), t.gets + (n + 1), t.logins, t.attempts + (n + 1),
            t.sleeps ++ (List.range n).map (fun j => api_delay (attempt + j))⟩) := by
  intro n
  induction n with
  | zero =>
    intro attempt t
    obtain ⟨r, hr, hst⟩ := h t.req
    rw [api_fetch_go_last env attempt t hr hst]
    simp
  | succ n' ih =>
    intro attempt t
    obtain ⟨r, hr, hst⟩ := h t.req
    rw [api_fetch_go_step env attempt (Nat.succ_ne_zero n') t hr hst]
    rw [ih]
    dsimp only
    rw [atrace_step]

/-- C3: when the upstream answers 429 (or any 5xx) to every request, both
`_get_json_via_download` implementations perform exactly 5 attempts — never
a sixth — with exponential backoff between them and then fail by raising:
`client.py` sleeps 1.1, 2.2, 4.4, 8.8, 17.6 seconds (delay plus 10% jitter)
and raises its max-retries exception; `api.py` sleeps 1, 2.1, 4.2, 8.3
seconds and raises a max-retries `APIError`.  Neither ever returns success. -/
theorem claim_C3_retry_bound_under_429 (cenv aenv : HttpEnv)
    (hc : ∀ i, ∃ r, cenv.resp i = .ok r ∧ (r.status = 429 ∨ 500 ≤ r.status))
    (ha : ∀ i, ∃ r, aenv.resp i = .ok r ∧ (r.status = 429 ∨ 500 ≤ r.status)) :
    (client_get_json_via_download cenv).1 = .error .maxRetriesExceeded ∧
    (client_get_json_via_download cenv).2.attempts = 5 ∧
    (client_get_json_via_download cenv).2.sleeps =
      [11 / 10, 11 / 5, 22 / 5, 44 / 5, 88 / 5] ∧
    (api_get_json_via_download aenv).1 = .error (.apiMaxRetries .api) ∧
    (api_get_json_via_download aenv).2.attempts = 5 ∧
    (api_get_json_via_download aenv).2.sleeps = [1, 21 / 10, 21 / 5, 83 / 10] := by
  have h1 := client_fetch_go_retryable cenv hc 5 0 0 ⟨0, []⟩
  have h2 := api_fetch_go_retryable aenv ha 4 0 ⟨0, 0, 0, 0, []⟩
  rw [client_get_json_via_download, h1, api_get_json_via_download, h2]
  refine ⟨rfl, rfl, ?_, rfl, rfl, ?_⟩
  · show List.map (fun j => client_delay (0 + j)) (List.range 5) = _
    norm_num [client_delay, List.range_succ]
  · show List.map (fun j => api_delay (0 + j)) (List.range 4) = _
    norm_num [api_delay, List.range_succ]

/-- Witness for C3 at the always-429 upstream. -/
theorem claim_C3_retry_bound_under_429_witness :
    (client_get_json_via_download always429Env).1 = .error .maxRetriesExceeded ∧
    (client_get_json_via_download always429Env).2.attempts = 5 ∧
    (api_get_json_via_download always429Env).1 = .error (.apiMaxRetries .api) ∧
    (api_get_json_via_download always429Env).2.attempts = 5 := by
  have h := claim_C3_retry_bound_under_429 always429Env always429Env
    (fun _ => ⟨⟨429, true, none, 0⟩, rfl, Or.inl rfl⟩)
    (fun _ => ⟨⟨429, true, none, 0⟩, rfl, Or.inl rfl⟩)
  exact ⟨h.1, h.2.1, h.2.2.2.1, h.2.2.2.2.1⟩

/-! ## Claim C4: 401/403 handling in `api.py` -/

/-- C4 (divergence evidence): with every request answered 401 — including
each retry performed after a re-login — `api.py` `_get_json_via_download`
does not stop after one re-authentication and one retry: the `AuthError`
raised inside each attempt is caught by the catch-all `except Exception`
handler and retried, so the fetch performs 5 attempts, 5 re-logins and 10
requests, and the exception finally raised is the plain
`APIError("Max retries exceeded ...")` wrapper, not an `AuthError`. -/
theorem claim_C4_auth_error_swallowed_by_retry :
    (api_get_json_via_download always401Env).1 = .error (.apiMaxRetries .auth) ∧
    (api_get_json_via_download always401Env).2.logins = 5 ∧
    (api_get_json_via_download always401Env).2.gets = 10 ∧
    (api_get_json_via_download always401Env).2.attempts = 5 := by
  refine ⟨rfl, by decide, by decide, by decide⟩
